import Mathlib

/-!
Verification of the ircgrep core (src/main.rs, src/line_view.rs): a shallow
embedding of the record parser and the match-and-context engine, with theorems
checking the natural-language specification against the code.

Modelling conventions:
* A raw text line is a `List Char`.  The log files are line-oriented text and
  every byte offset the code manipulates (tab positions, match spans) falls on
  a character boundary in the inputs of interest; char indices are used for
  byte indices (they coincide on ASCII data).
* `LineView::new` calls `.unwrap()` on `str::find`, so a line with fewer than
  two tabs makes the process panic.  The embedding returns `Option LineView`
  (`none` = panic) and the per-file drivers abort, modelling the panic as a
  fail-fast stop: the returned flag is `false` and no further line of the file
  is processed.
* `circular_queue::CircularQueue` (the `context` buffer) evicts the oldest
  element when full and its `iter` yields elements from the most recently
  pushed to the oldest.  The window is embedded as a `List Line` kept
  most-recent-first, so that the list itself is the iteration order of `iter`
  and `push` is `take capacity (l :: w)` (capacity 0 stores nothing).
* The compiled regex (`Settings.pattern` in the Rust code, an
  `Option<Regex>`) is embedded as a function from a message to the list of
  full-match spans produced by `captures_iter`, i.e. the find-all semantics of
  the external regex crate.  The fixed-string path (`str::match_indices`) is
  embedded concretely as `match_indices`.
* Output is modelled as the list of lines written (one entry per `writeln!` /
  `println!`), with terminal styling (colours) ignored.
-/

set_option autoImplicit false
set_option maxRecDepth 16384

namespace Ircgrep

/-- A raw line of text, as a list of characters. -/
abbrev Line := List Char

/-! ### Record parser (src/line_view.rs) -/

/-- Rust `str::find` specialised to the tab character: index of the first tab,
if any. -/
def find_tab : Line → Option Nat
  | [] => none
  | c :: rest => if c = '\t' then some 0 else (find_tab rest).map (· + 1)

/-- Zero-copy view of one log line (struct `LineView` of src/line_view.rs):
the line together with the positions of its first and second tab. -/
structure LineView where
  line : Line
  first_tab : Nat
  second_tab : Nat
  deriving DecidableEq

/-- Constructor `LineView::new`: locate the first tab, then the next tab after it.  The
Rust code unwraps both searches, panicking when a tab is missing; the panic is
modelled by `none`. -/
def LineView.new (l : Line) : Option LineView :=
  match find_tab l with
  | none => none
  | some ft =>
    match find_tab (l.drop (ft + 1)) with
    | none => none
    | some st => some ⟨l, ft, st + ft + 1⟩

/-- Accessor `LineView::message`: everything after the second tab. -/
def LineView.message (lv : LineView) : Line :=
  lv.line.drop (lv.second_tab + 1)

/-- Accessor `LineView::timestamp`: everything before the first tab. -/
def LineView.timestamp (lv : LineView) : Line :=
  lv.line.take lv.first_tab

/-- Accessor `LineView::nick`: the text between the two tabs, with a single leading
`@` or `+` stripped when present (`strip_prefix(&['@', '+'])`). -/
def LineView.nick (lv : LineView) : Line :=
  let raw := (lv.line.take lv.second_tab).drop (lv.first_tab + 1)
  match raw with
  | [] => []
  | c :: rest => if c = '@' ∨ c = '+' then rest else c :: rest

/-- Predicate `LineView::is_join`: the stripped nick is one of the synthetic
join/part/quit pseudo-speakers. -/
def LineView.is_join (lv : LineView) : Bool :=
  lv.nick = "<--".data ∨ lv.nick = "--".data ∨ lv.nick = "-->".data

/-! ### Match configuration (struct `Settings` of src/main.rs) -/

/-- The run configuration.  `pattern` embeds the compiled regex
(`Option<Regex>`) as its find-all function: the list of full-match spans that
`captures_iter` yields on a message.  It is only consulted when
`fixed = false`, mirroring the code (which unwraps the option there). -/
structure Settings where
  nickname : Line
  channel : Line
  network : Line
  pattern_string : Line
  pattern : Line → List (Nat × Nat)
  context : Nat
  strip_joins : Bool
  strip_time_stamps : Bool
  count : Bool
  fixed : Bool

/-- The four classification outcomes (enum `MatchType` of src/main.rs). -/
inductive MatchType where
  | Match : List (Nat × Nat) → MatchType
  | MatchNick : MatchType
  | NoMatch : MatchType
  | Skip : MatchType
  deriving DecidableEq

/-! ### Fixed-string search (`str::match_indices`) -/

/-- Worker for `match_indices`: scan `hay` one character at a time from
absolute position `pos`; on a hit at a position not covered by the previous
match record `(pos, pos + needle.length)`, and let `skip` count the remaining
characters of the current match so that the scan resumes right after it
(non-overlapping, left to right), exactly the behaviour of
`str::match_indices` for the non-empty needles the code reaches it with. -/
def match_indices_aux (needle : Line) : Line → Nat → Nat → List (Nat × Nat)
  | [], _, _ => []
  | c :: rest, pos, skip =>
    if 0 < skip then
      match_indices_aux needle rest (pos + 1) (skip - 1)
    else if needle.isPrefixOf (c :: rest) then
      (pos, pos + needle.length) ::
        match_indices_aux needle rest (pos + 1) (needle.length - 1)
    else
      match_indices_aux needle rest (pos + 1) 0

/-- Rust `hay.match_indices(needle)` as used at src/main.rs:70, returning
`(pos, pos + len)` for each non-overlapping occurrence, left to right. -/
def match_indices (hay needle : Line) : List (Nat × Nat) :=
  match_indices_aux needle hay 0 0

/-! ### Classification (`match_line`, src/main.rs:42-80) -/

/-- Function `match_line`: classify one parsed line against the configuration, rules
applied in the order of the Rust code. -/
def match_line (s : Settings) (lv : LineView) : MatchType :=
  if s.strip_joins ∧ lv.is_join then .Skip
  else if s.nickname ≠ [] ∧ s.nickname ≠ lv.nick then .NoMatch
  else if s.pattern_string = [] then .MatchNick
  else
    let v : List (Nat × Nat) :=
      if ¬ s.fixed then s.pattern lv.message
      else match_indices lv.message s.pattern_string
    if v ≠ [] then .Match v else .NoMatch

/-! ### Output rendering (`print_line`, src/main.rs:82-95) -/

/-- The message part of a printed match line, styling ignored: for each span
`(a, b)` the code prints `msg[0..a]` then (highlighted) `msg[a..b]`, and
finally `msg[b_last..]` for the last span.  (With an empty span list the Rust
code panics on `matches.last().unwrap()`; that case is unreachable from
`process_file` because classification guarantees a non-empty list, and the
embedding returns the empty rendering there.) -/
def render_message (msg : Line) (ms : List (Nat × Nat)) : Line :=
  (ms.flatMap fun p => msg.take p.1 ++ (msg.take p.2).drop p.1) ++
    match ms.getLast? with
    | some q => msg.drop q.2
    | none => []

/-- Function `print_line`: the single output line it writes — timestamp, tab, stripped
nick, tab, then the rendered message. -/
def print_line (lv : LineView) (ms : List (Nat × Nat)) : Line :=
  lv.timestamp ++ '\t' :: (lv.nick ++ '\t' :: render_message lv.message ms)

/-- The literal `"--"` separator line. -/
def separator_line : Line := "--".data

/-! ### Streaming engine (`process_file`, src/main.rs:103-149) -/

/-- Per-file streaming state: the after-match echo counter (`print_after`,
an `i32` in the code) and the context window.  The window list is kept
most-recent-first, matching the iteration order of `CircularQueue::iter`. -/
structure PState where
  print_after : Int
  window : List Line
  deriving DecidableEq

/-- Operation `CircularQueue::push` with capacity `cap`: prepend the new element (it
becomes the most recent) and drop the oldest if the capacity is exceeded; a
capacity-0 queue stores nothing. -/
def window_push (cap : Nat) (w : List Line) (l : Line) : List Line :=
  (l :: w).take cap

/-- One iteration of the `process_file` loop on raw line `l`: `none` models
the `LineView::new` panic on a malformed line; otherwise the pair of the
lines written during this iteration and the next state. -/
def step (s : Settings) (st : PState) (l : Line) : Option (List Line × PState) :=
  match LineView.new l with
  | none => none
  | some lv =>
    match match_line s lv with
    | .Match m =>
      some (st.window ++ [print_line lv m], ⟨(s.context : Int), []⟩)
    | .MatchNick =>
      some (st.window ++ [l], ⟨(s.context : Int), []⟩)
    | .NoMatch =>
      if 0 < st.print_after then
        some (l :: (if st.print_after = 1 then [separator_line] else []),
          ⟨st.print_after - 1, window_push s.context st.window l⟩)
      else
        some ([], ⟨st.print_after, window_push s.context st.window l⟩)
    | .Skip => some ([], st)

/-- Run the `process_file` loop over the lines of a file from state `st`:
the output lines, a flag that is `false` when a malformed line stopped the
file (the panic), and the final state. -/
def run_lines (s : Settings) (st : PState) : List Line → List Line × Bool × PState
  | [] => ([], true, st)
  | l :: rest =>
    match step s st l with
    | none => ([], false, st)
    | some (out, st') =>
      let r := run_lines s st' rest
      (out ++ r.1, r.2)

/-- Function `process_file`: stream one file from the initial state (`print_after = 0`,
empty window), returning the output lines and the no-panic flag. -/
def process_file (s : Settings) (lines : List Line) : List Line × Bool :=
  let r := run_lines s ⟨0, []⟩ lines
  (r.1, r.2.1)

/-! ### Count mode (`process_file_count`, src/main.rs:151-178) -/

/-- The running total of `process_file_count`: `Match v` adds `v.length`,
`MatchNick` adds 1, anything else adds 0; `none` models the parse panic. -/
def count_lines (s : Settings) : List Line → Option Nat
  | [] => some 0
  | l :: rest =>
    match LineView.new l with
    | none => none
    | some lv =>
      let c : Nat :=
        match match_line s lv with
        | .Match v => v.length
        | .MatchNick => 1
        | _ => 0
      (count_lines s rest).map (c + ·)

/-- Function `process_file_count`: consume the file, then write the single summary
line `"<file-identifier>:<count>"` (colours ignored).  On a malformed line
the process panics before the summary: no output, flag `false`. -/
def process_file_count (s : Settings) (fileid : Line) (lines : List Line) :
    List Line × Bool :=
  match count_lines s lines with
  | none => ([], false)
  | some n => ([fileid ++ ':' :: (Nat.repr n).data], true)

/-! ### Validation (`validate_settings`, src/main.rs:206-222) -/

/-- Function `validate_settings` as a predicate: the code exits unless `count` is
combined with none of the output-affecting options, and at least one of the
nickname and the pattern is given.  (Regex compilation of the pattern is
handled by the `Settings.pattern` field of the embedding.) -/
def validate_settings (s : Settings) : Bool :=
  !(s.count && (s.strip_joins || s.strip_time_stamps || decide (0 < s.context))) &&
    !(s.nickname.isEmpty && s.pattern_string.isEmpty)

/-! ### Derived notions used by the statements -/

/-- Number of tab characters in a line (the spec's malformed-line criterion is
`count_tabs l < 2`). -/
def count_tabs : Line → Nat
  | [] => 0
  | c :: rest => (if c = '\t' then 1 else 0) + count_tabs rest

/-- Parse a raw line and classify it: the outcome of one line, `none` when the
line is malformed. -/
def line_class (s : Settings) (l : Line) : Option MatchType :=
  (LineView.new l).map (match_line s)

/-- Number of lines of a file that classify as `NoMatch`. -/
def nm_count (s : Settings) : List Line → Nat
  | [] => 0
  | l :: rest =>
    (if line_class s l = some .NoMatch then 1 else 0) + nm_count s rest

/-! ### Concrete fixtures (the log line of the repository's own test suite and
a small synthetic file) -/

/-- The log line used by the tests in src/main.rs (its message is plain
ASCII, so char offsets and byte offsets agree); the apostrophe is
`Char.ofNat 39`. -/
def ex_line : Line :=
  "2020-06-22 11:18:46\tosse\tcheck-ignore is for diagnosing .gitignore issues. it doesn".data ++
    Char.ofNat 39 :: "t really have an effect on the repo".data

/-- Fixed-string configuration of the test `test_match_line_many_matches`:
nickname `osse`, literal pattern `re`. -/
def ex_settings : Settings :=
  { nickname := "osse".data, channel := [], network := [], pattern_string := "re".data,
    pattern := fun _ => [], context := 0, strip_joins := false,
    strip_time_stamps := false, count := true, fixed := true }

/-- Streaming configuration: nickname `osse`, no pattern, two context lines. -/
def str_settings : Settings :=
  { nickname := "osse".data, channel := [], network := [], pattern_string := [],
    pattern := fun _ => [], context := 2, strip_joins := false,
    strip_time_stamps := false, count := false, fixed := false }

/-- A non-matching line (speaker `bob`). -/
def line_a : Line := "t1\tbob\taaa".data

/-- A second non-matching line. -/
def line_b : Line := "t2\tbob\tbbb".data

/-- A matching line (speaker `osse`, matched on nickname alone). -/
def line_m : Line := "t3\tosse\tmmm".data

/-- A third non-matching line. -/
def line_c : Line := "t4\tbob\tccc".data

/-- A line whose raw speaker field carries the `@` operator prefix. -/
def op_line : Line := "12:00\t@osse\thi".data

/-- Regex-mode configuration whose pattern matches the characters `a` and `c`
of the message `abcd`: the embedded find-all function returns the spans the
regex `[ac]` yields on that message. -/
def c2_settings : Settings :=
  { nickname := [], channel := [], network := [], pattern_string := "[ac]".data,
    pattern := fun _ => [(0, 1), (2, 3)], context := 0, strip_joins := false,
    strip_time_stamps := false, count := false, fixed := false }

/-! ### Helper lemmas -/

/-- The `strip_time_stamps` field is not read by `step`. -/
theorem step_sts (s : Settings) (b : Bool) (st : PState) (l : Line) :
    step { s with strip_time_stamps := b } st l = step s st l := rfl

/-- The `strip_time_stamps` field is not read by `run_lines`. -/
theorem run_lines_sts (s : Settings) (b : Bool) :
    ∀ (lines : List Line) (st : PState),
      run_lines { s with strip_time_stamps := b } st lines = run_lines s st lines := by
  intro lines
  induction lines with
  | nil => intro st; rfl
  | cons l rest ih =>
    intro st
    simp only [run_lines, step_sts]
    cases step s st l with
    | none => rfl
    | some r => simp [ih]

/-- A search that finds no tab means the line has no tab at all. -/
theorem find_tab_none_iff (l : Line) : find_tab l = none ↔ count_tabs l = 0 := by
  induction l with
  | nil => simp [find_tab, count_tabs]
  | cons c rest ih =>
    by_cases hc : c = '\t'
    · simp [find_tab, count_tabs, hc]
    · simp [find_tab, count_tabs, hc, ih]

/-- A found tab accounts for exactly one tab before the remainder. -/
theorem find_tab_some_count (l : Line) (i : Nat) (h : find_tab l = some i) :
    count_tabs l = 1 + count_tabs (l.drop (i + 1)) := by
  induction l generalizing i with
  | nil => simp [find_tab] at h
  | cons c rest ih =>
    by_cases hc : c = '\t'
    · simp [find_tab, hc] at h
      subst h
      simp [count_tabs, hc]
    · simp [find_tab, hc, Option.map_eq_some'] at h
      obtain ⟨j, hj, hij⟩ := h
      subst hij
      simpa [count_tabs, hc] using ih j hj

/-- Parsing fails exactly on the lines with fewer than two tabs. -/
theorem lineview_new_none_iff (l : Line) :
    LineView.new l = none ↔ count_tabs l < 2 := by
  cases h1 : find_tab l with
  | none =>
    have h0 := (find_tab_none_iff l).1 h1
    simp [LineView.new, h1]
    omega
  | some ft =>
    cases h2 : find_tab (l.drop (ft + 1)) with
    | none =>
      have hc1 := find_tab_some_count l ft h1
      have hc2 := (find_tab_none_iff _).1 h2
      simp [LineView.new, h1, h2]
      omega
    | some st =>
      have hc1 := find_tab_some_count l ft h1
      have hc2 := find_tab_some_count _ st h2
      simp [LineView.new, h1, h2]
      omega

/-- The `context` field is not read by `match_line`. -/
theorem match_line_ctx (s : Settings) (n : Nat) (lv : LineView) :
    match_line { s with context := n } lv = match_line s lv := rfl

/-- The `context` field is not read by `count_lines`. -/
theorem count_lines_ctx (s : Settings) (n : Nat) :
    ∀ lines : List Line, count_lines { s with context := n } lines = count_lines s lines := by
  intro lines
  induction lines with
  | nil => rfl
  | cons l rest ih =>
    simp only [count_lines, ih, match_line_ctx]

/-- Soundness of the fixed-string scan: every recorded span lies at or after
the scan position, has the width of the needle, and slices back to the
needle; spans are in increasing order and non-overlapping. -/
theorem match_indices_aux_sound (needle msg : Line) :
    ∀ (hay : Line) (pos skip : Nat), hay = msg.drop pos →
      (∀ p ∈ match_indices_aux needle hay pos skip,
          pos + skip ≤ p.1 ∧ p.2 = p.1 + needle.length
            ∧ (msg.drop p.1).take needle.length = needle)
      ∧ List.Chain' (fun a b : Nat × Nat => a.2 ≤ b.1)
          (match_indices_aux needle hay pos skip) := by
  intro hay
  induction hay with
  | nil =>
    intro pos skip _
    simp [match_indices_aux]
  | cons c rest ih =>
    intro pos skip hdrop
    have hrest : rest = msg.drop (pos + 1) := by
      have h1 := congrArg (List.drop 1) hdrop
      simpa [List.drop_drop] using h1
    by_cases hskip : 0 < skip
    · obtain ⟨hall, hchain⟩ := ih (pos + 1) (skip - 1) hrest
      simp only [match_indices_aux, if_pos hskip]
      refine ⟨fun p hp => ?_, hchain⟩
      have h := hall p hp
      exact ⟨by omega, h.2.1, h.2.2⟩
    · by_cases hpre : needle.isPrefixOf (c :: rest)
      · obtain ⟨hall, hchain⟩ := ih (pos + 1) (needle.length - 1) hrest
        have hslice : (msg.drop pos).take needle.length = needle := by
          rw [← hdrop]
          exact (List.prefix_iff_eq_take.1 (List.isPrefixOf_iff_prefix.1 hpre)).symm
        simp only [match_indices_aux, if_neg hskip, if_pos hpre]
        constructor
        · intro p hp
          rcases List.mem_cons.1 hp with hp | hp
          · subst hp
            refine ⟨?_, rfl, hslice⟩
            show pos + skip ≤ pos
            omega
          · have h := hall p hp
            exact ⟨by omega, h.2.1, h.2.2⟩
        · refine List.chain'_cons'.2 ⟨fun y hy => ?_, hchain⟩
          have h := (hall y (List.mem_of_mem_head? hy)).1
          show pos + needle.length ≤ y.1
          omega
      · obtain ⟨hall, hchain⟩ := ih (pos + 1) 0 hrest
        simp only [match_indices_aux, if_neg hskip, if_neg hpre]
        refine ⟨fun p hp => ?_, hchain⟩
        have h := hall p hp
        exact ⟨by omega, h.2.1, h.2.2⟩

/-! ### Claims -/

/-- C1: in streaming mode the window is flushed before the matched line and
then cleared, but `CircularQueue::iter` yields newest-first, so the buffered
context lines come out in reverse input order: with `context = 2` the input
`line_a, line_b, line_m` (the first two `NoMatch`, the third a match) prints
`line_b` before `line_a`, not in FIFO order as the claim states. -/
theorem context_flush_is_newest_first :
    process_file str_settings [line_a, line_b, line_m]
        = ([line_b, line_a, line_m], true)
      ∧ line_a ≠ line_b :=
  ⟨rfl, by decide⟩

/-- C2: `print_line` prints `msg[0..start]` for every span instead of
resuming from the previous span's end, so with two spans the concatenation of
the emitted segments repeats a prefix of the message: on message `abcd` with
spans `(0,1)` and `(2,3)` (regex `[ac]`) the emitted record carries `aabcd`,
not `abcd`, contradicting the claim that the segments concatenate to the
original message exactly once. -/
theorem print_line_duplicates_prefix :
    process_file c2_settings ["t\tx\tabcd".data] = (["t\tx\taabcd".data], true)
      ∧ render_message "abcd".data [(0, 1), (2, 3)] ≠ "abcd".data :=
  ⟨rfl, by decide⟩

/-- C3 (counterexample): a `NickOnlyMatch` line is emitted as the raw line
(src/main.rs:129 writes `&l`), so a line with raw speaker `@osse` keeps its
`@` prefix in the output, contradicting the claim that every emitted matched
record carries the post-strip speaker. -/
theorem nick_match_prints_raw_line :
    process_file str_settings [op_line] = ([op_line], true)
      ∧ op_line ≠ "12:00\tosse\thi".data :=
  ⟨rfl, by decide⟩

/-- C3 (amended): a `ContentMatch` line is emitted as the tab-joined triple of
timestamp, post-strip speaker and rendered message, while a `NickOnlyMatch`
line is emitted verbatim as the raw input line (status prefix retained). -/
theorem emitted_record_shape (s : Settings) (st : PState) (l : Line) (lv : LineView)
    (hparse : LineView.new l = some lv) :
    (∀ m, match_line s lv = .Match m →
      step s st l = some (st.window ++
        [lv.timestamp ++ '\t' :: (lv.nick ++ '\t' :: render_message lv.message m)],
        ⟨(s.context : Int), []⟩))
    ∧ (match_line s lv = .MatchNick →
      step s st l = some (st.window ++ [l], ⟨(s.context : Int), []⟩)) := by
  constructor
  · intro m hm
    simp [step, hparse, hm, print_line]
  · intro hm
    simp [step, hparse, hm]

/-- C3 (witness): the amended statement applied to the `@osse` line. -/
theorem emitted_record_shape_witness :
    step str_settings ⟨0, []⟩ op_line = some ([op_line], ⟨2, []⟩) :=
  (emitted_record_shape str_settings ⟨0, []⟩ op_line ⟨op_line, 5, 11⟩ (by decide)).2
    (by decide)

/-- C5: with `strip_joins = true`, a line whose stripped speaker is `<--`,
`-->` or `--` classifies as `Skipped`, whatever the nickname filter and the
pattern say — join suppression is checked first. -/
theorem join_suppression_always_skips (s : Settings) (lv : LineView)
    (hj : s.strip_joins = true)
    (hn : lv.nick = "<--".data ∨ lv.nick = "-->".data ∨ lv.nick = "--".data) :
    match_line s lv = .Skip := by
  have hij : lv.is_join = true := by
    unfold LineView.is_join
    rcases hn with h | h | h <;> simp [h]
  simp [match_line, hj, hij]

/-- C5 (witness): a quit pseudo-speaker line under a configuration whose
nickname filter (`osse`) would otherwise reject it. -/
theorem join_suppression_always_skips_witness :
    match_line { str_settings with strip_joins := true } ⟨"t\t<--\tx".data, 1, 5⟩
      = .Skip :=
  join_suppression_always_skips _ _ rfl (by decide)

/-- C10: the `strip_time_stamps` flag is inert for processing: two validated
configurations differing only in it stream identically, and validation forces
`count = false` whenever the flag is set. -/
theorem strip_time_stamps_is_inert :
    (∀ (s : Settings) (b₁ b₂ : Bool) (lines : List Line),
        validate_settings { s with strip_time_stamps := b₁ } = true →
        validate_settings { s with strip_time_stamps := b₂ } = true →
        process_file { s with strip_time_stamps := b₁ } lines
          = process_file { s with strip_time_stamps := b₂ } lines)
    ∧ (∀ s : Settings, validate_settings s = true → s.strip_time_stamps = true →
        s.count = false) := by
  constructor
  · intro s b₁ b₂ lines _ _
    unfold process_file
    rw [run_lines_sts s b₁, run_lines_sts s b₂]
  · intro s hv hs
    revert hv
    cases hc : s.count
    · intro _; rfl
    · simp [validate_settings, hs, hc]

/-- C10 (witness): the two validated variants of the streaming configuration
process the same file identically, and the flag forces `count = false`. -/
theorem strip_time_stamps_is_inert_witness :
    process_file { str_settings with strip_time_stamps := true } [line_a, line_m]
        = process_file { str_settings with strip_time_stamps := false } [line_a, line_m]
      ∧ ({ str_settings with strip_time_stamps := true } : Settings).count = false :=
  ⟨strip_time_stamps_is_inert.1 str_settings true false [line_a, line_m]
      (by decide) (by decide),
    strip_time_stamps_is_inert.2 { str_settings with strip_time_stamps := true }
      (by decide) rfl⟩

/-- C4: a line with fewer than two tabs never yields a view, and hitting such
a line stops the file's processing right there with a failure — the rest of
the file is ignored (fail-fast), the line is not skipped. -/
theorem malformed_line_fails_fast :
    (∀ l : Line, LineView.new l = none ↔ count_tabs l < 2)
    ∧ (∀ (s : Settings) (st : PState) (pre : List Line) (l : Line) (suf : List Line),
        LineView.new l = none →
        run_lines s st (pre ++ l :: suf) = run_lines s st (pre ++ [l])
          ∧ (run_lines s st (pre ++ l :: suf)).2.1 = false) := by
  constructor
  · exact lineview_new_none_iff
  · intro s st pre l suf hl
    induction pre generalizing st with
    | nil =>
      refine ⟨?_, ?_⟩ <;> simp [run_lines, step, hl]
    | cons p pre ih =>
      simp only [List.cons_append, run_lines]
      cases h : step s st p with
      | none => exact ⟨rfl, rfl⟩
      | some r =>
        obtain ⟨out, st'⟩ := r
        refine ⟨?_, ?_⟩
        · show (out ++ (run_lines s st' (pre ++ l :: suf)).1,
              (run_lines s st' (pre ++ l :: suf)).2)
            = (out ++ (run_lines s st' (pre ++ [l])).1,
              (run_lines s st' (pre ++ [l])).2)
          rw [(ih st').1]
        · show (run_lines s st' (pre ++ l :: suf)).2.1 = false
          exact (ih st').2

/-- C4 (witness): the tab-less line `oops` aborts the file after `line_a`,
before `line_m` is ever looked at. -/
theorem malformed_line_fails_fast_witness :
    run_lines str_settings ⟨0, []⟩ [line_a, "oops".data, line_m]
        = run_lines str_settings ⟨0, []⟩ [line_a, "oops".data]
      ∧ (run_lines str_settings ⟨0, []⟩ [line_a, "oops".data, line_m]).2.1 = false :=
  malformed_line_fails_fast.2 str_settings ⟨0, []⟩ [line_a] "oops".data [line_m]
    ((malformed_line_fails_fast.1 "oops".data).2 (by decide))

/-- C8: on a `NoMatch` line with a positive after-match counter, the raw line
is echoed, the counter decremented, and the `--` separator emitted exactly
when the decrement reaches zero; concretely, with `context = 2`, three
`NoMatch` lines after a match yield two echoes and one separator, and the
third line is only pushed into the window (ordinary handling). -/
theorem after_match_echo_behavior :
    (∀ (s : Settings) (st : PState) (l : Line) (lv : LineView),
        LineView.new l = some lv → match_line s lv = .NoMatch →
        0 < st.print_after →
        step s st l = some (l :: (if st.print_after = 1 then [separator_line] else []),
          ⟨st.print_after - 1, window_push s.context st.window l⟩))
    ∧ run_lines str_settings ⟨0, []⟩ [line_m, line_a, line_b, line_c]
        = ([line_m, line_a, line_b, separator_line], true, ⟨0, [line_c, line_b]⟩) := by
  constructor
  · intro s st l lv hparse hm hpos
    simp [step, hparse, hm, hpos]
  · rfl

/-- C8 (witness): the first echoed line after a match, applied concretely. -/
theorem after_match_echo_behavior_witness :
    step str_settings ⟨2, []⟩ line_a = some ([line_a], ⟨1, [line_a]⟩) :=
  after_match_echo_behavior.1 str_settings ⟨2, []⟩ line_a ⟨line_a, 2, 6⟩
    (by decide) (by decide) (by decide)

/-- C7: in count mode the reported total is the sum of `len(spans)` over
`ContentMatch` lines, 1 over `NickOnlyMatch` lines and 0 otherwise, output as
the single summary line `"<file-identifier>:<count>"`; the `context` setting
(and with it the context window) is never consulted. -/
theorem count_mode_summary :
    (∀ (s : Settings) (fileid : Line) (lines : List Line),
        (∀ l ∈ lines, (LineView.new l).isSome = true) →
        process_file_count s fileid lines
          = ([fileid ++ ':' :: (Nat.repr ((lines.map fun l =>
              match line_class s l with
              | some (.Match v) => v.length
              | some .MatchNick => 1
              | _ => 0).sum)).data], true))
    ∧ (∀ (s : Settings) (n : Nat) (fileid : Line) (lines : List Line),
        process_file_count { s with context := n } fileid lines
          = process_file_count s fileid lines) := by
  constructor
  · intro s fileid lines h
    have key : ∀ ls : List Line, (∀ l ∈ ls, (LineView.new l).isSome = true) →
        count_lines s ls = some ((ls.map fun l =>
          match line_class s l with
          | some (.Match v) => v.length
          | some .MatchNick => 1
          | _ => 0).sum) := by
      intro ls
      induction ls with
      | nil => intro _; rfl
      | cons l rest ih =>
        intro hall
        obtain ⟨lv, hlv⟩ :=
          Option.isSome_iff_exists.1 (hall l (List.mem_cons_self l rest))
        have hrest := ih (fun x hx => hall x (List.mem_cons_of_mem l hx))
        simp only [count_lines, hlv, hrest, line_class, List.map_cons,
          List.sum_cons, Option.map_some']
        cases match_line s lv <;> rfl
    simp [process_file_count, key lines h]
  · intro s n fileid lines
    unfold process_file_count
    rw [count_lines_ctx]

/-- C7 (witness): the test-suite line contributes its four `re` spans, so the
summary for a one-line file is `file:4`. -/
theorem count_mode_summary_witness :
    process_file_count ex_settings "file".data [ex_line] = (["file:4".data], true) := by
  have h := count_mode_summary.1 ex_settings "file".data [ex_line] (by decide)
  rw [h]
  rfl

/-- C6: in fixed-string mode the spans of classification are exactly
`match_indices` — each span is `(start, start + pattern_length)`, slices back
to the literal pattern, and the spans are in left-to-right non-overlapping
order; on the repo test line with pattern `re` they are
`[(10,12),(39,41),(61,63),(90,92)]`. -/
theorem fixed_string_spans :
    (∀ (msg needle : Line),
        (∀ p ∈ match_indices msg needle,
            p.2 = p.1 + needle.length
              ∧ (msg.drop p.1).take needle.length = needle)
          ∧ List.Chain' (fun a b : Nat × Nat => a.2 ≤ b.1) (match_indices msg needle))
    ∧ (∀ (s : Settings) (lv : LineView),
        s.fixed = true → ¬(s.strip_joins = true ∧ lv.is_join = true) →
        (s.nickname = [] ∨ s.nickname = lv.nick) → s.pattern_string ≠ [] →
        match_line s lv
          = if match_indices lv.message s.pattern_string = [] then .NoMatch
            else .Match (match_indices lv.message s.pattern_string))
    ∧ line_class ex_settings ex_line
        = some (.Match [(10, 12), (39, 41), (61, 63), (90, 92)]) := by
  refine ⟨?_, ?_, rfl⟩
  · intro msg needle
    obtain ⟨hall, hchain⟩ := match_indices_aux_sound needle msg msg 0 0 rfl
    exact ⟨fun p hp => ⟨(hall p hp).2.1, (hall p hp).2.2⟩, hchain⟩
  · intro s lv hfix hjoin hnick hpat
    unfold match_line
    rw [if_neg hjoin]
    rw [if_neg (by rcases hnick with h | h <;> simp [h])]
    rw [if_neg hpat]
    rw [hfix]
    simp only [not_true, if_neg, ite_false]
    by_cases hv : match_indices lv.message s.pattern_string = []
    · simp [hv]
    · simp [hv]

/-- C6 (witness): the general statement applied to `abre`/`re` and to the
repository's own test line. -/
theorem fixed_string_spans_witness :
    (("abre".data.drop 2).take "re".data.length = "re".data)
      ∧ match_line ex_settings ⟨ex_line, 19, 24⟩
          = .Match [(10, 12), (39, 41), (61, 63), (90, 92)] :=
  ⟨((fixed_string_spans.1 "abre".data "re".data).1 (2, 4) (by decide)).2,
    by
      have h := fixed_string_spans.2.1 ex_settings ⟨ex_line, 19, 24⟩ rfl
        (by decide) (by decide) (by decide)
      rw [h]
      rfl⟩

/-- C9: the window never exceeds `context` entries; over a run of
`NoMatch`/`Skipped` lines from a window of size `min context k`, the window
size is `min context (k + number of NoMatch lines)` (so at a match, which
flushes exactly the window, the flushed count is the accumulated `NoMatch`
count capped at `context`); a match flushes the whole window and clears it;
and a `Skipped` line leaves output, window and counter untouched. -/
theorem context_window_invariant :
    (∀ (s : Settings) (st : PState) (l : Line) (out : List Line) (st' : PState),
        step s st l = some (out, st') → st.window.length ≤ s.context →
        st'.window.length ≤ s.context)
    ∧ (∀ (s : Settings) (st : PState) (mid : List Line) (k : Nat),
        (∀ l ∈ mid, line_class s l = some .NoMatch ∨ line_class s l = some .Skip) →
        st.window.length = min s.context k →
        (run_lines s st mid).2.2.window.length
          = min s.context (k + nm_count s mid))
    ∧ (∀ (s : Settings) (st : PState) (l : Line) (lv : LineView),
        LineView.new l = some lv →
        (∀ m, match_line s lv = .Match m →
          step s st l = some (st.window ++ [print_line lv m], ⟨(s.context : Int), []⟩))
        ∧ (match_line s lv = .MatchNick →
          step s st l = some (st.window ++ [l], ⟨(s.context : Int), []⟩)))
    ∧ (∀ (s : Settings) (st : PState) (l : Line) (lv : LineView),
        LineView.new l = some lv → match_line s lv = .Skip →
        step s st l = some ([], st)) := by
  refine ⟨?_, ?_, ?_, ?_⟩
  · intro s st l out st' hstep hle
    cases hparse : LineView.new l with
    | none =>
      rw [show step s st l = none from by simp [step, hparse]] at hstep
      exact absurd hstep (by simp)
    | some lv =>
      cases hm : match_line s lv with
      | Match m =>
        rw [show step s st l
              = some (st.window ++ [print_line lv m], ⟨(s.context : Int), []⟩)
            from by simp [step, hparse, hm]] at hstep
        simp at hstep
        obtain ⟨-, hs⟩ := hstep
        subst hs
        simp
      | MatchNick =>
        rw [show step s st l = some (st.window ++ [l], ⟨(s.context : Int), []⟩)
            from by simp [step, hparse, hm]] at hstep
        simp at hstep
        obtain ⟨-, hs⟩ := hstep
        subst hs
        simp
      | NoMatch =>
        by_cases hpa : (0 : Int) < st.print_after
        · rw [show step s st l
                = some (l :: (if st.print_after = 1 then [separator_line] else []),
                  ⟨st.print_after - 1, window_push s.context st.window l⟩)
              from by simp [step, hparse, hm, hpa]] at hstep
          simp at hstep
          obtain ⟨-, hs⟩ := hstep
          subst hs
          simp only [window_push, List.length_take, List.length_cons]
          omega
        · rw [show step s st l
                = some ([], ⟨st.print_after, window_push s.context st.window l⟩)
              from by simp [step, hparse, hm, hpa]] at hstep
          simp at hstep
          obtain ⟨-, hs⟩ := hstep
          subst hs
          simp only [window_push, List.length_take, List.length_cons]
          omega
      | Skip =>
        rw [show step s st l = some ([], st) from by simp [step, hparse, hm]] at hstep
        simp at hstep
        obtain ⟨-, hs⟩ := hstep
        subst hs
        exact hle
  · intro s st mid
    induction mid generalizing st with
    | nil =>
      intro k _ hw
      simpa [run_lines, nm_count] using hw
    | cons l rest ih =>
      intro k hall hw
      have hl := hall l (List.mem_cons_self l rest)
      have hrest := fun x hx => hall x (List.mem_cons_of_mem l hx)
      have hw' : (window_push s.context st.window l).length = min s.context (k + 1) := by
        simp only [window_push, List.length_take, List.length_cons, hw]
        omega
      rcases hl with hNo | hSk
      · have hlv : ∃ lv, LineView.new l = some lv ∧ match_line s lv = .NoMatch := by
          unfold line_class at hNo
          cases hparse : LineView.new l with
          | none => rw [hparse] at hNo; simp at hNo
          | some lv =>
            rw [hparse] at hNo
            simp at hNo
            exact ⟨lv, rfl, hNo⟩
        obtain ⟨lv, hparse, hm⟩ := hlv
        have hcount : nm_count s (l :: rest) = 1 + nm_count s rest := by
          simp [nm_count, hNo]
        by_cases hpa : (0 : Int) < st.print_after
        · have hstep : step s st l
              = some (l :: (if st.print_after = 1 then [separator_line] else []),
                ⟨st.print_after - 1, window_push s.context st.window l⟩) := by
            simp [step, hparse, hm, hpa]
          simp only [run_lines, hstep]
          have := ih ⟨st.print_after - 1, window_push s.context st.window l⟩ (k + 1)
            hrest hw'
          rw [hcount]
          convert this using 2
          omega
        · have hstep : step s st l
              = some ([], ⟨st.print_after, window_push s.context st.window l⟩) := by
            simp [step, hparse, hm, hpa]
          simp only [run_lines, hstep]
          have := ih ⟨st.print_after, window_push s.context st.window l⟩ (k + 1)
            hrest hw'
          rw [hcount]
          convert this using 2
          omega
      · have hlv : ∃ lv, LineView.new l = some lv ∧ match_line s lv = .Skip := by
          unfold line_class at hSk
          cases hparse : LineView.new l with
          | none => rw [hparse] at hSk; simp at hSk
          | some lv =>
            rw [hparse] at hSk
            simp at hSk
            exact ⟨lv, rfl, hSk⟩
        obtain ⟨lv, hparse, hm⟩ := hlv
        have hstep : step s st l = some ([], st) := by
          simp [step, hparse, hm]
        have hcount : nm_count s (l :: rest) = nm_count s rest := by
          simp [nm_count, hSk]
        simp only [run_lines, hstep]
        rw [hcount]
        exact ih st k hrest hw
  · intro s st l lv hparse
    constructor
    · intro m hm
      simp [step, hparse, hm]
    · intro hm
      simp [step, hparse, hm]
  · intro s st l lv hparse hm
    simp [step, hparse, hm]

/-- C9 (witness): three `NoMatch` lines from an empty window leave
`min 2 3 = 2` entries, and a nick-match flushes the one buffered line. -/
theorem context_window_invariant_witness :
    (run_lines str_settings ⟨0, []⟩ [line_a, line_b, line_c]).2.2.window.length
        = min str_settings.context (0 + nm_count str_settings [line_a, line_b, line_c])
      ∧ step str_settings ⟨0, [line_a]⟩ line_m = some ([line_a] ++ [line_m], ⟨2, []⟩) :=
  ⟨context_window_invariant.2.1 str_settings ⟨0, []⟩ [line_a, line_b, line_c] 0
      (by decide) rfl,
    (context_window_invariant.2.2.1 str_settings ⟨0, [line_a]⟩ line_m ⟨line_m, 2, 7⟩
        (by decide)).2 (by decide)⟩

end Ircgrep
